import Mathlib

/-!
Shallow embedding of the pyro-cov repository's glue and data-aggregation
code (src/mutrans.py, src/pyrocov/mutrans.py, src/pyrocov/fasta.py,
src/preprocess_gisaid.py, src/pyrophylo/strains.py), together with
theorems settling the specification claims about it.
-/

namespace PyroCov

/-! ## `cached` decorator (src/mutrans.py, lines 18-34)

The filesystem is modelled as a partial map from filenames to stored
values; `torch.save` writes one entry, `torch.load` reads it, and
`os.path.exists` is `Option.isSome` of the lookup. -/

namespace Cached

/-- `torch.save(result, f)`: the filesystem afterwards. -/
def torchSave {V : Type} (fs : String → Option V) (f : String) (v : V) :
    String → Option V :=
  fun g => if g = f then some v else fs g

/-- Outcome of one call of a `cached`-wrapped function: the value
returned, the filesystem afterwards, and whether the wrapped function
was invoked. -/
structure CallResult (V : Type) where
  result : V
  fs : String → Option V
  invoked : Bool

/-- One call of `cached(filename)(fn)` on arguments `a` over filesystem
`fs`, following `cached_fn` in src/mutrans.py: if the file named by
`filename a` does not exist, invoke `fn`, save and return the result;
otherwise load and return the stored value without invoking `fn`. -/
def cachedCall {A V : Type} (filename : A → String) (fn : A → V)
    (fs : String → Option V) (a : A) : CallResult V :=
  match fs (filename a) with
  | none => ⟨fn a, torchSave fs (filename a) (fn a), true⟩
  | some v => ⟨v, fs, false⟩

end Cached

/-! ## String helpers

Kernel-computable models of the python string operations used by the
embedded code, working on character lists. -/

namespace Str

/-- Lexicographic comparison of character lists (python string `<=`
restricted to what `sorted` needs). -/
def charListLe : List Char → List Char → Bool
  | [], _ => true
  | _ :: _, [] => false
  | a :: as, b :: bs => if a = b then charListLe as bs else decide (a < b)

/-- Python `s.split(c)` for a single-character separator: split at
every occurrence, keeping empty pieces. -/
def splitOnChar (c : Char) : List Char → List (List Char)
  | [] => [[]]
  | a :: rest =>
      if a = c then [] :: splitOnChar c rest
      else
        match splitOnChar c rest with
        | [] => [[a]]
        | h :: t => (a :: h) :: t

/-- Python `s.strip()`: drop whitespace from both ends. -/
def pyStrip (s : String) : String :=
  String.mk
    (((s.toList.dropWhile Char.isWhitespace).reverse.dropWhile
        Char.isWhitespace).reverse)

/-- Whether `pat` occurs as a contiguous substring of `s` (the
semantics of `re.search` for a literal pattern). -/
def containsSubstr (pat s : String) : Bool :=
  (List.range (s.toList.length + 1)).any fun i =>
    (s.toList.drop i).take pat.toList.length = pat.toList

end Str

/-! ## Cache filenames (src/mutrans.py, lines 37-66) -/

namespace Filenames

/-- One character of `_safe_str`: `re.sub("[^A-Za-x0-9-]", "_", v)`
keeps exactly the characters in the classes `A-Z`, `a-x` (sic), `0-9`
and `-`, replacing every other character with an underscore. -/
def safeChar (c : Char) : Char :=
  if ('A' ≤ c ∧ c ≤ 'Z') ∨ ('a' ≤ c ∧ c ≤ 'x') ∨ ('0' ≤ c ∧ c ≤ '9') ∨ c = '-'
  then c else '_'

/-- `_safe_str(v)` for a string `v`. -/
def safeStr (s : String) : String :=
  String.mk (s.toList.map safeChar)

/-- `sorted(d.items())` for a python dict with (unique) string keys:
sort the key-value pairs lexicographically. -/
def sortedItems (kvs : List (String × String)) : List (String × String) :=
  kvs.insertionSort fun a b =>
    (if a.1 = b.1 then Str.charListLe a.2.toList b.2.toList
     else Str.charListLe a.1.toList b.1.toList) = true

/-- `_load_data_filename(args, **kwargs)`: the `args.max_feature_order`
field together with the `include` and `exclude` dicts of `kwargs`. -/
def loadDataFilename (maxFeatureOrder : Nat)
    (incl excl : List (String × String)) : String :=
  let parts := ["data", toString maxFeatureOrder]
    ++ (sortedItems incl).map (fun kv => "I" ++ kv.1 ++ "=" ++ safeStr kv.2)
    ++ (sortedItems excl).map (fun kv => "E" ++ kv.1 ++ "=" ++ safeStr kv.2)
  "results/mutrans." ++ String.intercalate "." parts ++ ".pt"

/-- One positional argument of a wrapped fit function, as seen by
`_fit_filename`: either a scalar (rendered by python `str`, which we
carry as the rendered string) or a holdout tuple of key-value pairs. -/
inductive FitArg : Type
  | scalar (repr : String)
  | tup (kvs : List (String × String))
deriving DecidableEq

/-- How `_fit_filename` renders one argument from `args[2:]`. -/
def renderFitArg : FitArg → String
  | .scalar r => r
  | .tup kvs =>
      String.intercalate "-" (kvs.map fun kv => kv.1 ++ "=" ++ safeStr kv.2)

/-- `_fit_filename(name, *args)`: drops `args[0]` (the argparse
namespace) and `args[1]` (the dataset) and joins the renderings of the
remaining arguments. -/
def fitFilename (name : String) (args : List FitArg) : String :=
  "results/mutrans."
    ++ String.intercalate "." (name :: (args.drop 2).map renderFitArg)
    ++ ".pt"

end Filenames

/-! ## NextcladeDB scheduling (src/pyrocov/fasta.py, lines 15-66)

The SHA-1 digest itself comes from python's `hashlib`, outside this
repository, so it is carried as an abstract function `sha1`; the
newline stripping around it is from the source.  Alignment bookkeeping
state: the set of already-aligned hashes, the per-hash task lists
(a `defaultdict(list)` keyed by hash), the set of pending hashes and
the records written to the temporary fasta file. -/

namespace Fasta

/-- `hash_sequence(seq)`: SHA-1 hexdigest of the newline-stripped
sequence (`seq.replace("\n", "")` removes every newline character),
with the digest function abstract. -/
def hashSequence (sha1 : String → String) (seq : String) : String :=
  sha1 (String.mk (seq.toList.filter fun c => c ≠ '\n'))

/-- Add an element to a set modelled as a duplicate-free list. -/
def insertSet (l : List String) (x : String) : List String :=
  if x ∈ l then l else l ++ [x]

/-- `self._tasks[key].append(v)` on the `defaultdict(list)` of task
lists, modelled as a total map from keys to lists. -/
def dictAppend {τ : Type} (tasks : String → List τ) (k : String)
    (v : τ) : String → List τ :=
  fun q => if q = k then tasks q ++ [v] else tasks q

/-- The mutable state of a `NextcladeDB`, with tasks of abstract type
`τ` (the `fn_args` tuples). -/
structure DBState (τ : Type) where
  maxFastaCount : Nat
  alreadyAligned : List String
  tasks : String → List τ
  pending : List String
  fastaRecords : List (String × String)

/-- `NextcladeDB._flush`: no-op when nothing is pending; otherwise the
pending hashes are run through nextclade (external), recorded as
aligned, and the temporary fasta file is reset. -/
def flush {τ : Type} (st : DBState τ) : DBState τ :=
  if st.pending = [] then st
  else
    { st with
      alreadyAligned := st.pending.foldl insertSet st.alreadyAligned
      pending := []
      fastaRecords := [] }

/-- `NextcladeDB._schedule_alignment(key, sequence)`: write the record
to the fasta file, add the key to the pending set, and flush when the
pending set has reached `max_fasta_count`. -/
def scheduleAlignment {τ : Type} (st : DBState τ) (key seq : String) :
    DBState τ :=
  let st :=
    { st with
      fastaRecords := st.fastaRecords ++ [(key, seq)]
      pending := insertSet st.pending key }
  if st.maxFastaCount ≤ st.pending.length then flush st else st

/-- `NextcladeDB.schedule(sequence, *fn_args)`.  The boolean records
whether `_schedule_alignment` was called (new alignment work). -/
def schedule {τ : Type} (sha1 : String → String) (st : DBState τ)
    (seq : String) (cb : τ) : DBState τ × Bool :=
  let key := hashSequence sha1 seq
  let out :=
    if key ∈ st.alreadyAligned then (st, false)
    else (scheduleAlignment st key seq, true)
  ({ out.1 with tasks := dictAppend out.1.tasks key cb }, out.2)

/-- `NextcladeDB.maybe_schedule(sequence, *fn_args)`.  The boolean
records whether `_schedule_alignment` was called (it never is). -/
def maybeSchedule {τ : Type} (sha1 : String → String) (st : DBState τ)
    (seq : String) (cb : τ) : DBState τ × Bool :=
  let key := hashSequence sha1 seq
  if key ∈ st.alreadyAligned then
    ({ st with tasks := dictAppend st.tasks key cb }, false)
  else (st, false)

end Fasta

/-! ## GISAID sharding (src/preprocess_gisaid.py, lines 35-48) -/

namespace Shards

/-- The loop body of `update_shards`: `shards[i % k].write(line)` for
each enumerated line, with `i` the running line index. -/
def updateShardsAux {α : Type} (k : Nat) :
    List (List α) → Nat → List α → List (List α)
  | shards, _, [] => shards
  | shards, i, line :: rest =>
      updateShardsAux k
        (shards.set (i % k) (shards.getD (i % k) [] ++ [line])) (i + 1) rest

/-- `update_shards`: split the input lines over `k` freshly opened
shard files. -/
def updateShards {α : Type} (lines : List α) (k : Nat) : List (List α) :=
  updateShardsAux k (List.replicate k []) 0 lines

/-- The lines that the round-robin rule sends to shard `j` when the
enumeration starts at index `i`. -/
def linesFor {α : Type} (k j : Nat) : Nat → List α → List α
  | _, [] => []
  | i, a :: rest => (if i % k = j then [a] else []) ++ linesFor k j (i + 1) rest

end Shards

/-! ## ShardedFastaWriter (src/pyrocov/fasta.py, lines 134-176)

Files are modelled as lists of lines; a record is the two lines
`>name` and `sequence`.  `currentName` is the number substituted for
`*` when the currently open file was opened. -/

namespace Writer

/-- The mutable state of a `ShardedFastaWriter` between `__enter__`
and `__exit__`. -/
structure SWriter where
  maxCount : Nat
  fileCount : Nat
  lineCount : Nat
  closed : List (Nat × List String)
  currentName : Nat
  current : List String
deriving DecidableEq

/-- The state right after `__enter__`: file `0` is open (named with
the pre-increment `_file_count`), the count of records written to it
is zero, and `_file_count` has been incremented to `1`. -/
def enter (maxCount : Nat) : SWriter :=
  ⟨maxCount, 1, 0, [], 0, []⟩

/-- `ShardedFastaWriter.write(name, sequence)`: rotate to the next
file when the current one already holds `max_count` records, then
append the two-line record and bump the per-file record count. -/
def write (st : SWriter) (name seq : String) : SWriter :=
  let st :=
    if st.lineCount = st.maxCount then
      { st with
        fileCount := st.fileCount + 1
        lineCount := 0
        closed := st.closed ++ [(st.currentName, st.current)]
        currentName := st.fileCount
        current := [] }
    else st
  { st with
    current := st.current ++ [">" ++ name, seq]
    lineCount := st.lineCount + 1 }

/-- States reachable by writing records from a fresh `__enter__`. -/
inductive Reachable : SWriter → Prop
  | enter (maxCount : Nat) : Reachable (enter maxCount)
  | write {st : SWriter} (name seq : String) :
      Reachable st → Reachable (write st name seq)

end Writer

/-- `tensor.max().item()` for a vector of natural numbers (meaningful
on nonempty input, where this `foldl` agrees with the true maximum). -/
def listMax (l : List Nat) : Nat :=
  l.foldl max 0

/-! ## TimeSpaceStrainModel sample aggregation
(src/pyrophylo/strains.py, lines 143-151)

A genetic sample is its `(sample_time, sample_region, sample_strain)`
triple.  `strain_data` is produced by `scatter_add_` over the fused
index `(clamp(time, max=T-1) * Rc + region) * S + strain` into the
flattened `(T, Rc, S)`-shaped zero tensor. -/

namespace Strains

/-- `S = 1 + sample_strain.max().item()`. -/
def sOf (samples : List (Nat × Nat × Nat)) : Nat :=
  1 + listMax (samples.map fun x => x.2.2)

/-- `Rc = 1 + sample_region.max().item()`. -/
def rcOf (samples : List (Nat × Nat × Nat)) : Nat :=
  1 + listMax (samples.map fun x => x.2.1)

/-- The fused flat index of one sample:
`sample_time.clamp(max=T-1).mul_(Rc).add_(sample_region).mul_(S).add_(sample_strain)`. -/
def flatIdx (T Rc S : Nat) (x : Nat × Nat × Nat) : Nat :=
  (min x.1 (T - 1) * Rc + x.2.1) * S + x.2.2

/-- Entry `j` of the flattened `strain_data` after `scatter_add_` of
ones at the fused indices. -/
def strainDataFlat (T Rc S : Nat) (samples : List (Nat × Nat × Nat))
    (j : Nat) : Nat :=
  samples.countP fun x => flatIdx T Rc S x = j

/-- Entry `(t, c, s)` of the `(T, Rc, S)`-shaped `strain_data`, read
through `reshape(-1)` at flat position `(t * Rc + c) * S + s`. -/
def strainData (T : Nat) (samples : List (Nat × Nat × Nat))
    (t c s : Nat) : Nat :=
  strainDataFlat T (rcOf samples) (sOf samples) samples
    ((t * rcOf samples + c) * sOf samples + s)

/-- `strain_total = strain_data.sum(-1)` at `(t, c)`. -/
def strainTotal (T : Nat) (samples : List (Nat × Nat × Nat))
    (t c : Nat) : Nat :=
  ∑ s ∈ Finset.range (sOf samples), strainData T samples t c s

/-- `strain_mask = (strain_total > 0)` at `(t, c)`. -/
def strainMask (T : Nat) (samples : List (Nat × Nat × Nat))
    (t c : Nat) : Bool :=
  decide (0 < strainTotal T samples t c)

end Strains

/-! ## TimeSpaceStrainModel input validation
(src/pyrophylo/strains.py, lines 111-141)

Only the data the `assert` statements inspect is modelled: tensor
shapes, the minimum of `transit_data`, the scalar `death_rate` (with a
flag for `isinstance(death_rate, float)`), and the three sample
vectors. -/

namespace Validate

/-- The constructor arguments of `TimeSpaceStrainModel`, reduced to
what its assertions inspect. -/
structure Inputs where
  caseShape : Nat × Nat
  deathShape : List Nat
  populationShape : Option (List Nat)
  transitShape : List Nat
  transitMin : ℚ
  deathRate : ℚ
  deathRateIsFloat : Bool
  sampleTime : List Nat
  sampleRegion : List Nat
  sampleStrain : List Nat
  sampleMatrixShape : List Nat
  mutationMatrixShape : List Nat

/-- The conjunction of the `assert` statements of
`TimeSpaceStrainModel.__init__`, in source order:  `T, R` from
`case_data.shape`, then the death/population/transit shape checks with
`P = transit_data.size(-1)`, the `death_rate` check, nonnegativity of
`transit_data`, the sample-vector checks with `N = len(sample_time)`,
and the `sample_matrix`/`mutation_matrix` shape checks with
`S = 1 + sample_strain.max()` and `Rc = 1 + sample_region.max()`. -/
def validate (inp : Inputs) : Bool :=
  let T := inp.caseShape.1
  let R := inp.caseShape.2
  decide (inp.deathShape = [T, R]) &&
  (match inp.populationShape with
   | none => true
   | some sh => decide (sh = [R])) &&
  (let P := inp.transitShape.getLastD 0
   decide (inp.transitShape = [R, R, P])) &&
  (inp.deathRateIsFloat && decide (0 < inp.deathRate) &&
    decide (inp.deathRate < 1)) &&
  decide (0 ≤ inp.transitMin) &&
  (let N := inp.sampleTime.length
   decide (listMax inp.sampleTime ≤ T) &&
   decide (inp.sampleTime.length = N) &&
   decide (inp.sampleRegion.length = N) &&
   decide (inp.sampleStrain.length = N) &&
   (let S := 1 + listMax inp.sampleStrain
    let Rc := 1 + listMax inp.sampleRegion
    decide (inp.sampleMatrixShape = [Rc, R]) &&
    decide (inp.mutationMatrixShape = [S, S])))

end Validate

/-! ## OverdispersedPoisson and RelaxedPoisson
(src/pyrophylo/strains.py, lines 23-56), in exact real arithmetic. -/

namespace Distributions

/-- The distribution objects the two constructors can return. -/
inductive Distrib : Type
  | poisson (rate : ℝ)
  | negativeBinomial (r p : ℝ)
  | logNormal (m s : ℝ)

/-- `OverdispersedPoisson(rate, overdispersion)` for a scalar
overdispersion: `Poisson(rate)` when it is zero, otherwise the
negative binomial with `q = (1 + o*rate).reciprocal()`, `p = 1 - q`,
`r = rate * q / p`. -/
noncomputable def OverdispersedPoisson (rate : ℝ) (o : ℝ) : Distrib :=
  if o = 0 then .poisson rate
  else
    let q := (1 + o * rate)⁻¹
    let p := 1 - q
    let r := rate * q / p
    .negativeBinomial r p

/-- `RelaxedPoisson(rate, overdispersion)`:
`s2 = rate.reciprocal().add(o).log1p()`, `m = rate.log() - s2/2`,
`s = s2.sqrt()`. -/
noncomputable def RelaxedPoisson (rate : ℝ) (o : ℝ) : Distrib :=
  let s2 := Real.log (1 + (rate⁻¹ + o))
  let m := Real.log rate - s2 / 2
  .logNormal m (Real.sqrt s2)

/-- Mean of `NegativeBinomial(r, p)`: `r p / (1 - p)`. -/
noncomputable def nbMean (r p : ℝ) : ℝ :=
  r * p / (1 - p)

/-- Variance of `NegativeBinomial(r, p)`: `r p / (1 - p)^2`. -/
noncomputable def nbVariance (r p : ℝ) : ℝ :=
  r * p / (1 - p) ^ 2

/-- Mean of `LogNormal(m, s)`: `exp(m + s^2/2)`. -/
noncomputable def logNormalMean (m s : ℝ) : ℝ :=
  Real.exp (m + s ^ 2 / 2)

/-- Variance of `LogNormal(m, s)`: `(exp(s^2) - 1) exp(2m + s^2)`. -/
noncomputable def logNormalVariance (m s : ℝ) : ℝ :=
  (Real.exp (s ^ 2) - 1) * Real.exp (2 * m + s ^ 2)

end Distributions

/-! ## pyrocov.mutrans.load_data (src/pyrocov/mutrans.py, lines 28-110)

The inputs are the rows of `results/gisaid.columns.pkl` (zipped
`virus_name`, `day`, `location`, `lineage` columns) and the contents
of `results/nextclade.features.pt` (`features`, `lineages`,
`mutations`).  `pangolin.compress` is not part of this repository and
is carried as an abstract function, and the two `re` patterns are
carried as abstract boolean match predicates (`re.search`).  Tensors
are lists of rationals; the `(T,P,S)` count tensor is a list of lists
of lists of naturals. -/

namespace LoadData

/-- `TIMESTEP` (src/pyrocov/mutrans.py, line 25). -/
def TIMESTEP : Nat := 14

/-- One zipped row of the `columns` dict. -/
structure Row where
  virusName : String
  day : Nat
  location : String
  lineage : String
deriving DecidableEq

/-- The pickled/saved inputs of `load_data`. -/
structure RawData where
  rows : List Row
  aaLineages : List String
  aaMutations : List String
  aaFeatures : List (List ℚ)
deriving DecidableEq

/-- Index assigned by the dict comprehension
`{k: i for i, k in enumerate(l)}`: the **last** index of `k` in `l`
(later pairs overwrite earlier ones). -/
def lastIndexOf (l : List String) (k : String) : Option Nat :=
  ((l.enum.filter fun x => x.2 = k).map fun x => x.1).getLast?

/-- The region aggregation applied to a `location` string: split on
`/`; drop rows with fewer than two parts; strip the first three parts;
keep three parts only for USA and United Kingdom, else two; re-join
with `" / "`. -/
def processLocation (loc : String) : Option String :=
  let parts := (Str.splitOnChar '/' loc.toList).map String.mk
  if parts.length < 2 then none
  else
    let parts := (parts.take 3).map Str.pyStrip
    let parts :=
      if parts.getD 1 "" = "USA" ∨ parts.getD 1 "" = "United Kingdom"
      then parts else parts.take 2
    some (String.intercalate " / " parts)

/-- Whether a row survives the four `continue` filters of the
aggregation loop: known (compressed) lineage, virus-name pattern,
location pattern, and a splittable location. -/
def keepRow (compress : String → String)
    (virusPattern locationPattern : Option (String → Bool))
    (lineageIdInv : List String) (row : Row) : Bool :=
  (lastIndexOf lineageIdInv (compress row.lineage)).isSome &&
  (match virusPattern with
   | none => true
   | some p => p row.virusName) &&
  (match locationPattern with
   | none => true
   | some p => p row.location) &&
  (processLocation row.location).isSome

/-- The ordered keys of `location_id` as built by
`location_id.setdefault(location, len(location_id))`: processed
locations of kept rows, in first-appearance order. -/
def locationsOf (compress : String → String)
    (virusPattern locationPattern : Option (String → Bool))
    (lineageIdInv : List String) (rows : List Row) : List String :=
  rows.foldl
    (fun acc row =>
      if keepRow compress virusPattern locationPattern lineageIdInv row then
        let loc := (processLocation row.location).getD ""
        if loc ∈ acc then acc else acc ++ [loc]
      else acc)
    []

/-- The count `sparse_data[t, p, s]` accumulated by the loop, with `p`
an index into the ordered `location_id` keys and `s` the
`lineage_id` index of the row's compressed lineage. -/
def sparseCount (compress : String → String)
    (virusPattern locationPattern : Option (String → Bool))
    (lineageIdInv : List String) (locations : List Row → List String)
    (rows : List Row) (t p s : Nat) : Nat :=
  rows.countP fun row =>
    keepRow compress virusPattern locationPattern lineageIdInv row &&
    row.day / TIMESTEP = t &&
    (locations rows).indexOf ((processLocation row.location).getD "") = p &&
    (lastIndexOf lineageIdInv (compress row.lineage)).getD 0 = s

/-- The dict returned by `load_data`: the dense count tensor as nested
lists, plus the identifier tables.  `weekly` has shape
`(T, len(ok_regions), S)`. -/
structure LoadResult where
  locationId : List String
  mutations : List String
  weekly : List (List (List Nat))
  features : List (List ℚ)
  lineageIdSize : Nat
deriving DecidableEq

/-- `lineage_id_inv = list(map(pangolin.compress, aa_features["lineages"]))`. -/
def lineageIdInvOf (compress : String → String) (raw : RawData) :
    List String :=
  raw.aaLineages.map compress

/-- `T = 1 + max(columns["day"]) // TIMESTEP`. -/
def TOf (raw : RawData) : Nat :=
  1 + listMax (raw.rows.map Row.day) / TIMESTEP

/-- `S = len(lineage_id)`: the number of distinct compressed lineages. -/
def SOf (compress : String → String) (raw : RawData) : Nat :=
  (lineageIdInvOf compress raw).dedup.length

/-- The ordered `location_id` keys of the aggregation loop. -/
def locsOf (compress : String → String)
    (virusPattern locationPattern : Option (String → Bool))
    (raw : RawData) : List String :=
  locationsOf compress virusPattern locationPattern
    (lineageIdInvOf compress raw) raw.rows

/-- `weekly_strains[t, p, s]` before region filtering. -/
def countOf (compress : String → String)
    (virusPattern locationPattern : Option (String → Bool))
    (raw : RawData) (t p s : Nat) : Nat :=
  sparseCount compress virusPattern locationPattern
    (lineageIdInvOf compress raw)
    (fun _ => locsOf compress virusPattern locationPattern raw)
    raw.rows t p s

/-- `num_times_observed[p] = (weekly_strains > 0).max(2).values.sum(0)[p]`:
the number of time buckets in which region `p` has any positive
count. -/
def numTimesObservedOf (compress : String → String)
    (virusPattern locationPattern : Option (String → Bool))
    (raw : RawData) (p : Nat) : Nat :=
  ((List.range (TOf raw)).filter fun t =>
    (List.range (SOf compress raw)).any fun s =>
      decide (0 < countOf compress virusPattern locationPattern raw t p s)).length

/-- `ok_regions = (num_times_observed >= 2).nonzero(...)`. -/
def okRegionsOf (compress : String → String)
    (virusPattern locationPattern : Option (String → Bool))
    (raw : RawData) : List Nat :=
  (List.range (locsOf compress virusPattern locationPattern raw).length).filter
    fun p =>
      2 ≤ numTimesObservedOf compress virusPattern locationPattern raw p

/-- The region-filtered dense tensor
`weekly_strains.index_select(1, ok_regions)`. -/
def weeklyOf (compress : String → String)
    (virusPattern locationPattern : Option (String → Bool))
    (raw : RawData) : List (List (List Nat)) :=
  (List.range (TOf raw)).map fun t =>
    (okRegionsOf compress virusPattern locationPattern raw).map fun p =>
      (List.range (SOf compress raw)).map fun s =>
        countOf compress virusPattern locationPattern raw t p s

/-- `ok_mutations = (num_strains_with_mutation >= 1).nonzero(...)` with
`num_strains_with_mutation = (features >= 0.5).sum(0)`. -/
def okMutationsOf (raw : RawData) : List Nat :=
  (List.range raw.aaMutations.length).filter fun m =>
    1 ≤ raw.aaFeatures.countP fun rowF => decide ((0.5 : ℚ) ≤ rowF.getD m 0)

/-- `load_data(device, virus_name_pattern, location_pattern)` on raw
data `raw`, with `pangolin.compress` abstract.  Returns `none` where
the python code raises (empty `columns["day"]` for `max`, or a sparse
key outside the dense `(T,P,S)` tensor, possible only when two
`aa_features` lineages compress to the same string). -/
def loadData (compress : String → String)
    (virusPattern locationPattern : Option (String → Bool))
    (raw : RawData) : Option LoadResult :=
  if raw.rows = [] then none
  else if ¬ (raw.rows.all fun row =>
      !keepRow compress virusPattern locationPattern
          (lineageIdInvOf compress raw) row ||
        (lastIndexOf (lineageIdInvOf compress raw)
            (compress row.lineage)).getD 0 < SOf compress raw)
  then none
  else
    some
      { locationId :=
          (okRegionsOf compress virusPattern locationPattern raw).map fun p =>
            (locsOf compress virusPattern locationPattern raw).getD p ""
        mutations := (okMutationsOf raw).map fun m => raw.aaMutations.getD m ""
        weekly := weeklyOf compress virusPattern locationPattern raw
        features :=
          raw.aaFeatures.map fun rowF =>
            (okMutationsOf raw).map fun m => rowF.getD m 0
        lineageIdSize := SOf compress raw }

end LoadData

/-! ## main dispatch (src/mutrans.py, lines 133-239)

`main` is modelled by the sequence of data-loading, fitting and saving
calls it performs.  Floats (learning rates) are rationals; a holdout
is the tuple-of-tuples form built at line 222-224. -/

namespace Main

/-- The argparse namespace fields `main` reads. -/
structure Args where
  mcmc : Bool
  svi : Bool
  guideType : String
  modelType : String
  numSteps : Nat
  numWarmup : Nat
  numSamples : Nat
  maxTreeDepth : Nat
  learningRate : ℚ
  learningRateDecay : ℚ
deriving DecidableEq

/-- A holdout in its canonical tuple form:
`tuple((k, tuple(sorted(v.items()))) for k, v in sorted(holdout.items()))`. -/
def Holdout : Type := List (String × List (String × String))

instance : DecidableEq Holdout := by
  unfold Holdout
  infer_instance

/-- One entry of the `inference_configs` list: an SVI configuration
`(guide_type, n, lr, lrd)` or an MCMC configuration
`("mcmc", model_type, num_steps, num_warmup, num_samples,
max_tree_depth)`. -/
inductive InfConfig : Type
  | svi (guide : String) (n : Nat) (lr lrd : ℚ)
  | mcmc (model : String) (n warmup samples depth : Nat)
deriving DecidableEq

/-- The literal `inference_configs` list (src/mutrans.py, lines
166-207), headed by the command-line SVI configuration. -/
def inferenceConfigs (a : Args) : List InfConfig :=
  [ .svi a.guideType a.numSteps a.learningRate a.learningRateDecay,
    .mcmc "naive" a.numSteps a.numWarmup a.numSamples a.maxTreeDepth,
    .mcmc "dependent" a.numSteps a.numWarmup a.numSamples a.maxTreeDepth,
    .mcmc "conditioned" a.numSteps a.numWarmup a.numSamples a.maxTreeDepth,
    .mcmc "preconditioned" a.numSteps a.numWarmup a.numSamples a.maxTreeDepth,
    .svi "map" 1001 (0.05 : ℚ) (1.0 : ℚ),
    .svi "normal_delta" 2001 (0.05 : ℚ) (0.1 : ℚ),
    .svi "normal" 2001 (0.05 : ℚ) (0.1 : ℚ),
    .svi "mvn_delta" 10001 (0.01 : ℚ) (0.1 : ℚ),
    .svi "mvn_normal" 10001 (0.01 : ℚ) (0.1 : ℚ),
    .svi "mvn_delta_dependent" 10001 (0.01 : ℚ) (0.1 : ℚ),
    .svi "mvn_normal_dependent" 10001 (0.01 : ℚ) (0.1 : ℚ) ]

/-- The literal `holdouts` list (src/mutrans.py, lines 211-218), in
canonical tuple form. -/
def holdoutList : List Holdout :=
  [ [("exclude", [("location", "^Europe / United Kingdom")])],
    [("exclude", [("location", "^North America / USA")])],
    [("include", [("location", "^Europe / United Kingdom")])],
    [("include", [("location", "^North America / USA")])],
    [("include", [("virus_name", "^hCoV-19/USA/..-CDC-")])],
    [("include", [("virus_name", "^hCoV-19/USA/..-CDC-2-")])] ]

/-- The calls `main` makes, in order. -/
inductive Action : Type
  | loadData (holdout : Holdout)
  | fitSvi (guide : String) (n : Nat) (lr lrd : ℚ) (holdout : Holdout)
  | fitMcmc (model : String) (n warmup samples depth : Nat)
      (holdout : Holdout)
  | save (path : String) (keys : List (InfConfig × Holdout))
deriving DecidableEq

/-- The fit call for one config: `fit_mcmc` when `config[0] == "mcmc"`
else `fit_svi`. -/
def fitAction : InfConfig → Holdout → Action
  | .svi g n lr lrd, h => .fitSvi g n lr lrd h
  | .mcmc m n w s d, h => .fitMcmc m n w s d h

/-- The `configs` list: every inference config paired with the empty
holdout, then the command-line SVI config paired with each holdout. -/
def configsAll (a : Args) : List (InfConfig × Holdout) :=
  (inferenceConfigs a).map (fun c => (c, ([] : Holdout)))
    ++ holdoutList.map fun h =>
        (.svi a.guideType a.numSteps a.learningRate a.learningRateDecay, h)

/-- The trace of `main(args)`: the `--mcmc` branch, the `--svi`
branch, or the sequential fit over `configs` followed by saving the
result dict (whose keys are the configs) to `results/mutrans.pt`. -/
def mainTrace (a : Args) : List Action :=
  if a.mcmc then
    [ .loadData [],
      .fitMcmc a.modelType a.numSteps a.numWarmup a.numSamples
        a.maxTreeDepth [] ]
  else if a.svi then
    [ .loadData [],
      .fitSvi a.guideType a.numSteps a.learningRate a.learningRateDecay [] ]
  else
    (configsAll a).flatMap
        (fun ch => [.loadData ch.2, fitAction ch.1 ch.2])
      ++ [.save "results/mutrans.pt" (configsAll a)]

end Main

/-! ## Concrete example inputs used in witnesses and counterexamples -/

namespace Examples

/-- A two-row GISAID column file whose rows both live in region
`"Europe / ay"` in two consecutive time buckets, with a single lineage
`"L"` carrying a single mutation. -/
def rawAy : LoadData.RawData :=
  { rows :=
      [⟨"hCoV-19/v1", 0, "Europe / ay", "L"⟩,
       ⟨"hCoV-19/v2", 14, "Europe / ay", "L"⟩]
    aaLineages := ["L"]
    aaMutations := ["M1"]
    aaFeatures := [[1]] }

end Examples

/-! # Theorems -/

/-- C1: for every function wrapped by `cached` and every call, if the
cache file named by the filename function on the call's arguments does
not exist, the wrapped function is invoked, its result saved to that
file and returned; if the file exists, the stored value is loaded and
returned and the wrapped function is not invoked.  The second conjunct
quantifies over an arbitrary stored value `v`: existence is the only
condition checked and the content is never validated against the
arguments. -/
theorem claim_C1 {A V : Type} (filename : A → String) (fn : A → V)
    (fs : String → Option V) (a : A) :
    (fs (filename a) = none →
      Cached.cachedCall filename fn fs a =
        ⟨fn a, Cached.torchSave fs (filename a) (fn a), true⟩) ∧
    (∀ v, fs (filename a) = some v →
      Cached.cachedCall filename fn fs a = ⟨v, fs, false⟩) := by
  constructor
  · intro h
    simp [Cached.cachedCall, h]
  · intro v h
    simp [Cached.cachedCall, h]

/-- Witness for C1: a miss on an empty filesystem computes, saves and
reports invocation; a hit on a filesystem storing `7` returns `7`
without invoking the function whose value would be `4`. -/
theorem claim_C1_witness :
    (Cached.cachedCall (fun n : Nat => toString n) (fun n => n + 1)
        (fun _ => (none : Option Nat)) 3 =
      ⟨4, Cached.torchSave (fun _ => (none : Option Nat)) "3" 4, true⟩) ∧
    (Cached.cachedCall (fun n : Nat => toString n) (fun n => n + 1)
        (fun _ => (some 7 : Option Nat)) 3 =
      ⟨7, fun _ => (some 7 : Option Nat), false⟩) :=
  ⟨(claim_C1 (fun n : Nat => toString n) (fun n => n + 1)
      (fun _ => (none : Option Nat)) 3).1 rfl,
   (claim_C1 (fun n : Nat => toString n) (fun n => n + 1)
      (fun _ => (some 7 : Option Nat)) 3).2 7 rfl⟩

namespace Fasta

/-- `_schedule_alignment` (and the `_flush` it may trigger) never
touches the task lists. -/
theorem tasks_scheduleAlignment {τ : Type} (st : DBState τ)
    (key seq : String) :
    (scheduleAlignment st key seq).tasks = st.tasks := by
  unfold scheduleAlignment flush
  dsimp only
  split
  · split <;> rfl
  · rfl

end Fasta

/-- C4: for every sequence, `NextcladeDB.schedule` appends the given
callback to the task list keyed by the (abstract SHA-1) hash of the
newline-stripped sequence — touching no other task list — and
schedules new alignment work iff that hash is not already aligned;
`NextcladeDB.maybe_schedule` appends the callback iff the hash is
already aligned, never schedules alignment work, and for a
not-yet-aligned sequence changes no state at all. -/
theorem claim_C4 {τ : Type} (sha1 : String → String)
    (st : Fasta.DBState τ) (seq : String) (cb : τ) :
    ((Fasta.schedule sha1 st seq cb).1.tasks (Fasta.hashSequence sha1 seq) =
      st.tasks (Fasta.hashSequence sha1 seq) ++ [cb]) ∧
    (∀ k, k ≠ Fasta.hashSequence sha1 seq →
      (Fasta.schedule sha1 st seq cb).1.tasks k = st.tasks k) ∧
    ((Fasta.schedule sha1 st seq cb).2 =
      !decide (Fasta.hashSequence sha1 seq ∈ st.alreadyAligned)) ∧
    (Fasta.hashSequence sha1 seq ∈ st.alreadyAligned →
      (Fasta.maybeSchedule sha1 st seq cb).1 =
        { st with
            tasks := Fasta.dictAppend st.tasks
              (Fasta.hashSequence sha1 seq) cb }) ∧
    (Fasta.hashSequence sha1 seq ∉ st.alreadyAligned →
      (Fasta.maybeSchedule sha1 st seq cb).1 = st) ∧
    ((Fasta.maybeSchedule sha1 st seq cb).2 = false) := by
  refine ⟨?_, ?_, ?_, ?_, ?_, ?_⟩
  · by_cases h : Fasta.hashSequence sha1 seq ∈ st.alreadyAligned <;>
      simp [Fasta.schedule, h, Fasta.dictAppend, Fasta.tasks_scheduleAlignment]
  · intro k hk
    by_cases h : Fasta.hashSequence sha1 seq ∈ st.alreadyAligned <;>
      simp [Fasta.schedule, h, Fasta.dictAppend, hk,
        Fasta.tasks_scheduleAlignment]
  · by_cases h : Fasta.hashSequence sha1 seq ∈ st.alreadyAligned <;>
      simp [Fasta.schedule, h]
  · intro h
    simp [Fasta.maybeSchedule, h]
  · intro h
    simp [Fasta.maybeSchedule, h]
  · by_cases h : Fasta.hashSequence sha1 seq ∈ st.alreadyAligned <;>
      simp [Fasta.maybeSchedule, h]

/-- Witness for C4 at a concrete database state (identity digest): the
sequence `"AC\nGT"` hashes to `"ACGT"`, which is aligned in `stA` and
not aligned in `stB`; `maybe_schedule` appends in the first case and
is a no-op in the second. -/
theorem claim_C4_witness :
    ((Fasta.maybeSchedule id
        (⟨4000, ["ACGT"], fun _ => ([] : List Nat), [], []⟩ :
          Fasta.DBState Nat) "AC\nGT" 5).1 =
      { (⟨4000, ["ACGT"], fun _ => ([] : List Nat), [], []⟩ :
          Fasta.DBState Nat) with
          tasks := Fasta.dictAppend (fun _ => ([] : List Nat)) "ACGT" 5 }) ∧
    ((Fasta.maybeSchedule id
        (⟨4000, [], fun _ => ([] : List Nat), [], []⟩ :
          Fasta.DBState Nat) "AC\nGT" 5).1 =
      (⟨4000, [], fun _ => ([] : List Nat), [], []⟩ : Fasta.DBState Nat)) :=
  ⟨(claim_C4 id (⟨4000, ["ACGT"], fun _ => ([] : List Nat), [], []⟩ :
      Fasta.DBState Nat) "AC\nGT" 5).2.2.2.1 (by decide),
   (claim_C4 id (⟨4000, [], fun _ => ([] : List Nat), [], []⟩ :
      Fasta.DBState Nat) "AC\nGT" 5).2.2.2.2.1 (by decide)⟩

/-- C7: `main` dispatches on the inference flags.  With `--mcmc` set it
loads the dataset and calls `fit_mcmc` once with the configured model
type, step, warmup, sample and tree-depth arguments and returns without
iterating the built-in config and holdout lists; with `--svi` set it
calls `fit_svi` once and returns; with neither flag it fits every
configuration of the inference-config list plus the SVI configuration
for each holdout (18 configurations in all) and finally saves the
combined result dictionary, keyed by those configurations, to
`results/mutrans.pt`. -/
theorem claim_C7 (a : Main.Args) :
    (a.mcmc = true →
      Main.mainTrace a =
        [.loadData [],
         .fitMcmc a.modelType a.numSteps a.numWarmup a.numSamples
           a.maxTreeDepth []]) ∧
    (a.mcmc = false → a.svi = true →
      Main.mainTrace a =
        [.loadData [],
         .fitSvi a.guideType a.numSteps a.learningRate
           a.learningRateDecay []]) ∧
    (a.mcmc = false → a.svi = false →
      ((Main.mainTrace a).getLast? =
        some (.save "results/mutrans.pt" (Main.configsAll a))) ∧
      (Main.configsAll a).length = 18 ∧
      (∀ c ∈ Main.inferenceConfigs a,
        Main.fitAction c [] ∈ Main.mainTrace a) ∧
      (∀ h ∈ Main.holdoutList,
        Main.Action.fitSvi a.guideType a.numSteps a.learningRate
          a.learningRateDecay h ∈ Main.mainTrace a) ∧
      (∀ ch ∈ Main.configsAll a,
        Main.Action.loadData ch.2 ∈ Main.mainTrace a)) := by
  refine ⟨?_, ?_, ?_⟩
  · intro hm
    simp [Main.mainTrace, hm]
  · intro hm hs
    simp [Main.mainTrace, hm, hs]
  · intro hm hs
    have htrace : Main.mainTrace a =
        (Main.configsAll a).flatMap
            (fun ch => [.loadData ch.2, Main.fitAction ch.1 ch.2])
          ++ [.save "results/mutrans.pt" (Main.configsAll a)] := by
      simp [Main.mainTrace, hm, hs]
    refine ⟨?_, ?_, ?_, ?_, ?_⟩
    · rw [htrace]
      exact List.getLast?_concat _
    · simp [Main.configsAll, Main.inferenceConfigs, Main.holdoutList]
    · intro c hc
      rw [htrace]
      refine List.mem_append_left _ (List.mem_flatMap.mpr ⟨(c, []), ?_, ?_⟩)
      · exact List.mem_append_left _ (List.mem_map_of_mem _ hc)
      · simp
    · intro h hh
      rw [htrace]
      refine List.mem_append_left _ (List.mem_flatMap.mpr
        ⟨(.svi a.guideType a.numSteps a.learningRate a.learningRateDecay, h),
          ?_, ?_⟩)
      · exact List.mem_append_right _ (List.mem_map_of_mem _ hh)
      · simp [Main.fitAction]
    · intro ch hch
      rw [htrace]
      exact List.mem_append_left _
        (List.mem_flatMap.mpr ⟨ch, hch, by simp⟩)

/-- Witness for C7 at three concrete argument namespaces differing
only in the flags: `--mcmc`, `--svi`, and neither. -/
theorem claim_C7_witness :
    (Main.mainTrace
        ⟨true, false, "mvn_dependent", "dependent", 10001, 1000, 1000, 10,
          (0.01 : ℚ), (0.1 : ℚ)⟩ =
      [.loadData [], .fitMcmc "dependent" 10001 1000 1000 10 []]) ∧
    (Main.mainTrace
        ⟨false, true, "mvn_dependent", "dependent", 10001, 1000, 1000, 10,
          (0.01 : ℚ), (0.1 : ℚ)⟩ =
      [.loadData [],
       .fitSvi "mvn_dependent" 10001 (0.01 : ℚ) (0.1 : ℚ) []]) ∧
    (Main.configsAll
        ⟨false, false, "mvn_dependent", "dependent", 10001, 1000, 1000, 10,
          (0.01 : ℚ), (0.1 : ℚ)⟩).length = 18 :=
  ⟨(claim_C7 ⟨true, false, "mvn_dependent", "dependent", 10001, 1000, 1000,
      10, (0.01 : ℚ), (0.1 : ℚ)⟩).1 rfl,
   (claim_C7 ⟨false, true, "mvn_dependent", "dependent", 10001, 1000, 1000,
      10, (0.01 : ℚ), (0.1 : ℚ)⟩).2.1 rfl rfl,
   ((claim_C7 ⟨false, false, "mvn_dependent", "dependent", 10001, 1000, 1000,
      10, (0.01 : ℚ), (0.1 : ℚ)⟩).2.2 rfl rfl).2.1⟩

/-- C2 counterexample: the claim that configurations differing in a
result-affecting argument get distinct filenames is false.  The
`include` values `"ay"` and `"az"` differ and filter the data
differently (shown on concrete raw data via the location pattern),
yet `_load_data_filename` (and likewise `_fit_filename` for the
holdout argument) returns the same filename for both, because
`_safe_str`'s character class `[^A-Za-x0-9-]` (note `a-x`) maps both
`y` and `z` to `_`; `_fit_filename` also ignores the `args` namespace
(e.g. the seed) entirely. -/
theorem claim_C2_counterexample :
    (Filenames.loadDataFilename 0 [("location", "ay")] [] =
      Filenames.loadDataFilename 0 [("location", "az")] []) ∧
    (("ay" : String) ≠ "az") ∧
    (Filenames.fitFilename "svi"
        [.scalar "Namespace(seed=1)", .scalar "dataset",
         .tup [("location", "ay")]] =
      Filenames.fitFilename "svi"
        [.scalar "Namespace(seed=2)", .scalar "dataset",
         .tup [("location", "az")]]) ∧
    ((LoadData.loadData id none
        (some fun s => Str.containsSubstr "ay" s) Examples.rawAy).map
          LoadData.LoadResult.locationId ≠
      (LoadData.loadData id none
        (some fun s => Str.containsSubstr "az" s) Examples.rawAy).map
          LoadData.LoadResult.locationId) := by
  refine ⟨by decide, by decide, by decide, by decide⟩

/-- C2 as amended: calls with equal configuration arguments always get
equal filenames, and the filename is keyed on exactly the
`max_feature_order` value together with the keys and `_safe_str`
images of the values of the sorted `include`/`exclude` dicts
(respectively, for `_fit_filename`, on the name and the renderings of
the positional arguments from the third onward).  Distinctness
therefore holds only up to `_safe_str` collisions and up to the
dropped `args`/`dataset` arguments. -/
theorem claim_C2_amended :
    (∀ (n₁ n₂ : Nat) (i₁ e₁ i₂ e₂ : List (String × String)),
      n₁ = n₂ →
      (Filenames.sortedItems i₁).map
          (fun kv => (kv.1, Filenames.safeStr kv.2)) =
        (Filenames.sortedItems i₂).map
          (fun kv => (kv.1, Filenames.safeStr kv.2)) →
      (Filenames.sortedItems e₁).map
          (fun kv => (kv.1, Filenames.safeStr kv.2)) =
        (Filenames.sortedItems e₂).map
          (fun kv => (kv.1, Filenames.safeStr kv.2)) →
      Filenames.loadDataFilename n₁ i₁ e₁ =
        Filenames.loadDataFilename n₂ i₂ e₂) ∧
    (∀ (name : String) (a₁ a₂ : List Filenames.FitArg),
      (a₁.drop 2).map Filenames.renderFitArg =
        (a₂.drop 2).map Filenames.renderFitArg →
      Filenames.fitFilename name a₁ = Filenames.fitFilename name a₂) := by
  constructor
  · intro n₁ n₂ i₁ e₁ i₂ e₂ hn hi he
    subst hn
    have rem : ∀ (pre : String) (l : List (String × String)),
        l.map (fun kv => pre ++ kv.1 ++ "=" ++ Filenames.safeStr kv.2) =
        (l.map fun kv => (kv.1, Filenames.safeStr kv.2)).map
          (fun p => pre ++ p.1 ++ "=" ++ p.2) := by
      intro pre l
      simp [List.map_map, Function.comp_def]
    unfold Filenames.loadDataFilename
    rw [rem "I" (Filenames.sortedItems i₁), rem "I" (Filenames.sortedItems i₂),
      rem "E" (Filenames.sortedItems e₁), rem "E" (Filenames.sortedItems e₂),
      hi, he]
  · intro name a₁ a₂ h
    unfold Filenames.fitFilename
    rw [h]

/-- Witness for C2 as amended: `include` values `"a y"` and `"a_y"`
differ but have equal `_safe_str` images, so the two filenames agree;
and `_fit_filename` gives the same name whatever the first two
(dropped) arguments are. -/
theorem claim_C2_amended_witness :
    (Filenames.loadDataFilename 0 [("k", "a y")] [] =
      Filenames.loadDataFilename 0 [("k", "a_y")] []) ∧
    (Filenames.fitFilename "svi"
        [.scalar "argsA", .scalar "datasetA"] =
      Filenames.fitFilename "svi" []) :=
  ⟨claim_C2_amended.1 0 0 [("k", "a y")] [] [("k", "a_y")] [] rfl
      (by decide) (by decide),
   claim_C2_amended.2 "svi" [.scalar "argsA", .scalar "datasetA"] []
      (by decide)⟩

namespace Writer

/-- `write` never changes `max_count`. -/
theorem maxCount_write (st : SWriter) (name seq : String) :
    (write st name seq).maxCount = st.maxCount := by
  unfold write
  dsimp only
  split <;> rfl

/-- Invariant of reachable writer states when `max_count ≥ 1`: the
open file holds exactly `2 * line_count` lines (one two-line record
per counted write), at most `max_count` records are in the open file,
and every rotated-out file holds exactly `max_count` records. -/
theorem reachable_invariant (st : SWriter) (h : Reachable st) :
    1 ≤ st.maxCount →
    st.current.length = 2 * st.lineCount ∧
      st.lineCount ≤ st.maxCount ∧
      ∀ f ∈ st.closed, f.2.length = 2 * st.maxCount := by
  induction h with
  | enter m =>
      intro _
      simp [enter]
  | @write st name seq _ ih =>
      intro hm
      rw [maxCount_write] at hm
      obtain ⟨h1, h2, h3⟩ := ih hm
      by_cases hc : st.lineCount = st.maxCount
      · refine ⟨?_, ?_, ?_⟩ <;> simp [write, hc]
        · exact hm
        · intro a b hab
          rcases hab with hab | hab
          · exact h3 _ hab
          · rw [hab.2, h1, hc]
      · refine ⟨?_, ?_, ?_⟩ <;> simp [write, hc]
        · omega
        · omega
        · intro a b hab
          exact h3 (a, b) hab

end Writer

/-- C6 counterexample: with `max_count = 0` the invariant "no output
file receives more than `max_count` records" fails.  Starting from
`__enter__` and writing twice, the rotation check
`line_count == max_count` fires only on the first write, and the open
file ends up holding two two-line records — more than `max_count = 0`
— in a reachable state. -/
theorem claim_C6_counterexample :
    ((Writer.write (Writer.write (Writer.enter 0) "a" "AC") "b" "GT").current
      = [">a", "AC", ">b", "GT"]) ∧
    ((Writer.write (Writer.write (Writer.enter 0) "a" "AC") "b" "GT").lineCount
      = 2) ∧
    ((Writer.write (Writer.write (Writer.enter 0) "a" "AC") "b" "GT").maxCount
      = 0) ∧
    Writer.Reachable
      (Writer.write (Writer.write (Writer.enter 0) "a" "AC") "b" "GT") :=
  ⟨by decide, by decide, by decide,
   .write "b" "GT" (.write "a" "AC" (.enter 0))⟩

/-- C6 as amended: for `max_count ≥ 1`, `ShardedFastaWriter` maintains
the invariant that no output file receives more than `max_count`
records; every write appends exactly one two-line record
(`'>' + name`, then the sequence) to the current file, and when the
current file already holds `max_count` records the writer first closes
it, opens the next file under the incremented file count, and resets
the per-file record count before writing.  (For `max_count = 0` the
invariant fails, as the counterexample shows.) -/
theorem claim_C6_amended (st : Writer.SWriter) (h : Writer.Reachable st)
    (hm : 1 ≤ st.maxCount) :
    (st.current.length = 2 * st.lineCount ∧
      st.lineCount ≤ st.maxCount ∧
      ∀ f ∈ st.closed, f.2.length = 2 * st.maxCount) ∧
    (∀ name seq,
      ((Writer.write st name seq).current =
        (if st.lineCount = st.maxCount then [] else st.current)
          ++ [">" ++ name, seq]) ∧
      (st.lineCount = st.maxCount →
        (Writer.write st name seq).closed =
            st.closed ++ [(st.currentName, st.current)] ∧
        (Writer.write st name seq).currentName = st.fileCount ∧
        (Writer.write st name seq).fileCount = st.fileCount + 1 ∧
        (Writer.write st name seq).lineCount = 1) ∧
      (st.lineCount ≠ st.maxCount →
        (Writer.write st name seq).closed = st.closed ∧
        (Writer.write st name seq).lineCount = st.lineCount + 1)) := by
  refine ⟨Writer.reachable_invariant st h hm, ?_⟩
  intro name seq
  by_cases hc : st.lineCount = st.maxCount <;>
    simp [Writer.write, hc]

/-- Witness for C6 as amended at the reachable state obtained by one
write after `__enter__` with `max_count = 1`. -/
theorem claim_C6_amended_witness :
    (Writer.write (Writer.enter 1) "a" "AC").current.length =
      2 * (Writer.write (Writer.enter 1) "a" "AC").lineCount ∧
    (Writer.write (Writer.enter 1) "a" "AC").lineCount ≤
      (Writer.write (Writer.enter 1) "a" "AC").maxCount :=
  ⟨(claim_C6_amended (Writer.write (Writer.enter 1) "a" "AC")
      (.write "a" "AC" (.enter 1)) (by decide)).1.1,
   (claim_C6_amended (Writer.write (Writer.enter 1) "a" "AC")
      (.write "a" "AC" (.enter 1)) (by decide)).1.2.1⟩

namespace Shards

/-- The loop never changes the number of shard files. -/
theorem length_updateShardsAux {α : Type} (k : Nat) (l : List α) :
    ∀ shards i, (updateShardsAux k shards i l).length = shards.length := by
  induction l with
  | nil => intro shards i; rfl
  | cons a rest ih =>
      intro shards i
      rw [updateShardsAux, ih]
      simp

/-- Characterization of the loop: shard `j` receives exactly the lines
whose running index is congruent to `j` mod `k`, appended to its
previous contents. -/
theorem getD_updateShardsAux {α : Type} (k : Nat) (l : List α) :
    ∀ shards (i j : Nat), j < shards.length →
      (updateShardsAux k shards i l).getD j [] =
        shards.getD j [] ++ linesFor k j i l := by
  induction l with
  | nil =>
      intro shards i j _
      simp [updateShardsAux, linesFor]
  | cons a rest ih =>
      intro shards i j hj
      rw [updateShardsAux, linesFor, ih _ _ _ (by simpa using hj)]
      by_cases hij : i % k = j
      · subst hij
        rw [List.getD_eq_getElem?_getD, List.getElem?_set, if_pos rfl,
          if_pos hj]
        simp [List.getD_eq_getElem?_getD]
      · rw [List.getD_eq_getElem?_getD, List.getElem?_set, if_neg hij,
          ← List.getD_eq_getElem?_getD]
        simp [hij]

/-- Appending one line at the end sends it to the shard of its index. -/
theorem linesFor_append {α : Type} (k j : Nat) (l : List α) (a : α) :
    ∀ i, linesFor k j i (l ++ [a]) =
      linesFor k j i l ++ (if (i + l.length) % k = j then [a] else []) := by
  induction l with
  | nil => intro i; simp [linesFor]
  | cons b rest ih =>
      intro i
      show (if i % k = j then [b] else []) ++ linesFor k j (i + 1) (rest ++ [a])
        = ((if i % k = j then [b] else []) ++ linesFor k j (i + 1) rest)
          ++ (if (i + (rest.length + 1)) % k = j then [a] else [])
      rw [ih (i + 1), List.append_assoc]
      have harith : i + 1 + rest.length = i + (rest.length + 1) := by omega
      simp only [harith]

/-- Round-robin balance: after `n` lines there are `q = n / k` full
rounds and `r = n % k` extra lines, shard `j` holding `q + 1` lines
for `j < r` and `q` lines otherwise. -/
theorem linesFor_length_inv {α : Type} (k : Nat) (hk : 0 < k)
    (l : List α) :
    ∃ q r, l.length = q * k + r ∧ r < k ∧
      ∀ j, j < k →
        (linesFor k j 0 l).length = if j < r then q + 1 else q := by
  induction l using List.reverseRecOn with
  | nil =>
      refine ⟨0, 0, by simp, hk, ?_⟩
      intro j hj
      simp [linesFor]
  | append_singleton l a ih =>
      obtain ⟨q, r, hlen, hr, hind⟩ := ih
      have hmod : l.length % k = r := by
        rw [hlen, Nat.add_comm, Nat.add_mul_mod_self_right,
          Nat.mod_eq_of_lt hr]
      by_cases hrk : r + 1 = k
      · refine ⟨q + 1, 0, ?_, hk, ?_⟩
        · rw [List.length_append, List.length_singleton, hlen, ← hrk]
          ring
        · intro j hj
          rw [linesFor_append, List.length_append, hind j hj]
          simp only [Nat.zero_add, hmod]
          by_cases hjr : r = j <;> simp [hjr] <;> first | omega | (split_ifs <;> omega)
      · refine ⟨q, r + 1, ?_, by omega, ?_⟩
        · rw [List.length_append, List.length_singleton, hlen,
            Nat.add_assoc]
        · intro j hj
          rw [linesFor_append, List.length_append, hind j hj]
          simp only [Nat.zero_add, hmod]
          by_cases hjr : r = j <;> simp [hjr] <;> first | omega | (split_ifs <;> omega)

end Shards

/-- C5: `update_shards` partitions the input file round-robin over the
shards.  There are exactly `k` shards; shard `j` receives exactly the
lines with index `≡ j (mod k)` in order (so every line goes to exactly
one shard, and the shard line counts sum to the input length); and any
two shards' line counts differ by at most one. -/
theorem claim_C5 {α : Type} (lines : List α) (k : Nat) (hk : 0 < k) :
    ((Shards.updateShards lines k).length = k) ∧
    (∀ j, j < k →
      (Shards.updateShards lines k).getD j [] =
        Shards.linesFor k j 0 lines) ∧
    ((∑ j ∈ Finset.range k,
        ((Shards.updateShards lines k).getD j []).length) = lines.length) ∧
    (∀ j1 j2, j1 < k → j2 < k →
      ((Shards.updateShards lines k).getD j1 []).length ≤
        ((Shards.updateShards lines k).getD j2 []).length + 1) := by
  have hchar : ∀ j, j < k →
      (Shards.updateShards lines k).getD j [] =
        Shards.linesFor k j 0 lines := by
    intro j hj
    unfold Shards.updateShards
    rw [Shards.getD_updateShardsAux k lines _ 0 j (by simpa using hj)]
    simp
  obtain ⟨q, r, hlen, hr, hind⟩ := Shards.linesFor_length_inv k hk lines
  refine ⟨?_, hchar, ?_, ?_⟩
  · unfold Shards.updateShards
    rw [Shards.length_updateShardsAux]
    simp
  · have hsum : (∑ j ∈ Finset.range k,
        ((Shards.updateShards lines k).getD j []).length)
        = ∑ j ∈ Finset.range k, (q + if j < r then 1 else 0) := by
      apply Finset.sum_congr rfl
      intro j hj
      rw [hchar j (Finset.mem_range.mp hj), hind j (Finset.mem_range.mp hj)]
      split_ifs <;> omega
    have hfilter : ((Finset.range k).filter (· < r)) = Finset.range r := by
      ext j
      simp only [Finset.mem_filter, Finset.mem_range]
      omega
    rw [hsum, Finset.sum_add_distrib, Finset.sum_const, Finset.card_range,
      smul_eq_mul, Finset.sum_ite, Finset.sum_const_zero, Finset.sum_const,
      hfilter, hlen]
    simp [Finset.card_range, Nat.mul_comm]
  · intro j1 j2 hj1 hj2
    rw [hchar j1 hj1, hchar j2 hj2, hind j1 hj1, hind j2 hj2]
    split_ifs <;> omega

/-- Witness for C5: three lines over two shards land as `[l0, l2]` and
`[l1]`. -/
theorem claim_C5_witness :
    (Shards.updateShards [10, 20, 30] 2).getD 0 [] = [10, 30] ∧
    (Shards.updateShards [10, 20, 30] 2).getD 1 [] = [20] :=
  ⟨((claim_C5 [10, 20, 30] 2 (by decide)).2.1 0 (by decide)).trans (by decide),
   ((claim_C5 [10, 20, 30] 2 (by decide)).2.1 1 (by decide)).trans (by decide)⟩

/-- C8: `TimeSpaceStrainModel.__init__` passes its assertion prologue
(before any state is built) exactly when: `death_data` has the same
`(T, R)` shape as `case_data`; `population`, when given, has shape
`(R,)`; `transit_data` has shape `(R, R, P)` for some `P` and is
elementwise nonnegative; `death_rate` is a float strictly between `0`
and `1`; the three sample vectors have the same length with
`sample_time`'s maximum at most `T`; and `sample_matrix`,
`mutation_matrix` have shapes `(Rc, R)`, `(S, S)` for
`Rc = 1 + max(sample_region)`, `S = 1 + max(sample_strain)`.  In
particular any 4-dimensional `transit_data` — such as the `(T,R,R,P)`
shape stated in the class docstring — is rejected.  (The model is
faithful for nonempty sample vectors, where `tensor.max()` is
defined.) -/
theorem claim_C8 (inp : Validate.Inputs)
    (hN : 0 < inp.sampleTime.length) :
    (Validate.validate inp = true ↔
      (inp.deathShape = [inp.caseShape.1, inp.caseShape.2] ∧
       (∀ sh, inp.populationShape = some sh → sh = [inp.caseShape.2]) ∧
       (∃ P, inp.transitShape = [inp.caseShape.2, inp.caseShape.2, P]) ∧
       inp.deathRateIsFloat = true ∧
       0 < inp.deathRate ∧ inp.deathRate < 1 ∧
       0 ≤ inp.transitMin ∧
       inp.sampleRegion.length = inp.sampleTime.length ∧
       inp.sampleStrain.length = inp.sampleTime.length ∧
       listMax inp.sampleTime ≤ inp.caseShape.1 ∧
       inp.sampleMatrixShape =
         [1 + listMax inp.sampleRegion, inp.caseShape.2] ∧
       inp.mutationMatrixShape =
         [1 + listMax inp.sampleStrain, 1 + listMax inp.sampleStrain])) ∧
    (inp.transitShape.length = 4 → Validate.validate inp = false) := by
  have hiff : Validate.validate inp = true ↔
      (inp.deathShape = [inp.caseShape.1, inp.caseShape.2] ∧
       (∀ sh, inp.populationShape = some sh → sh = [inp.caseShape.2]) ∧
       (∃ P, inp.transitShape = [inp.caseShape.2, inp.caseShape.2, P]) ∧
       inp.deathRateIsFloat = true ∧
       0 < inp.deathRate ∧ inp.deathRate < 1 ∧
       0 ≤ inp.transitMin ∧
       inp.sampleRegion.length = inp.sampleTime.length ∧
       inp.sampleStrain.length = inp.sampleTime.length ∧
       listMax inp.sampleTime ≤ inp.caseShape.1 ∧
       inp.sampleMatrixShape =
         [1 + listMax inp.sampleRegion, inp.caseShape.2] ∧
       inp.mutationMatrixShape =
         [1 + listMax inp.sampleStrain, 1 + listMax inp.sampleStrain]) := by
    unfold Validate.validate
    cases hpop : inp.populationShape with
    | none =>
        simp only [Bool.and_eq_true, decide_eq_true_eq]
        constructor
        · intro h
          refine ⟨by tauto, ?_, ⟨inp.transitShape.getLastD 0, by tauto⟩,
            by tauto, by tauto, by tauto, by tauto, by tauto, by tauto,
            by tauto, by tauto, by tauto⟩
          intro sh hsh
          exact Option.noConfusion hsh
        · intro h
          obtain ⟨P, h3⟩ := h.2.2.1
          have h3' : inp.transitShape =
              [inp.caseShape.2, inp.caseShape.2,
                inp.transitShape.getLastD 0] := by
            rw [h3]
            rfl
          repeat' apply And.intro
          all_goals first | trivial | exact h3' | tauto
    | some sh0 =>
        simp only [Bool.and_eq_true, decide_eq_true_eq]
        constructor
        · intro h
          refine ⟨by tauto, ?_, ⟨inp.transitShape.getLastD 0, by tauto⟩,
            by tauto, by tauto, by tauto, by tauto, by tauto, by tauto,
            by tauto, by tauto, by tauto⟩
          intro sh hsh
          injection hsh with e
          subst e
          tauto
        · intro h
          obtain ⟨P, h3⟩ := h.2.2.1
          have h3' : inp.transitShape =
              [inp.caseShape.2, inp.caseShape.2,
                inp.transitShape.getLastD 0] := by
            rw [h3]
            rfl
          have hsh0 : sh0 = [inp.caseShape.2] := h.2.1 sh0 rfl
          repeat' apply And.intro
          all_goals first | trivial | exact h3' | exact hsh0 | tauto
  refine ⟨hiff, ?_⟩
  intro h4
  cases hval : Validate.validate inp with
  | false => rfl
  | true =>
      obtain ⟨-, -, ⟨P, h3⟩, -⟩ := hiff.mp hval
      rw [h3] at h4
      simp at h4

/-- Witness for C8: a concrete input set passing every assertion, and
its 4-dimensional-transit variant being rejected. -/
theorem claim_C8_witness :
    (Validate.validate
        ⟨(2, 3), [2, 3], none, [3, 3, 1], 0, (1 : ℚ)/2, true,
          [1], [0], [0], [1, 3], [1, 1]⟩ = true) ∧
    (Validate.validate
        ⟨(2, 3), [2, 3], none, [5, 3, 3, 1], 0, (1 : ℚ)/2, true,
          [1], [0], [0], [1, 3], [1, 1]⟩ = false) :=
  ⟨(claim_C8 ⟨(2, 3), [2, 3], none, [3, 3, 1], 0, (1 : ℚ)/2, true,
      [1], [0], [0], [1, 3], [1, 1]⟩ (by decide)).1.mpr
      ⟨rfl, fun sh hsh => Option.noConfusion hsh, ⟨1, rfl⟩, rfl,
        by norm_num, by norm_num, le_refl 0, rfl, rfl, by decide, rfl, rfl⟩,
   (claim_C8 ⟨(2, 3), [2, 3], none, [5, 3, 3, 1], 0, (1 : ℚ)/2, true,
      [1], [0], [0], [1, 3], [1, 1]⟩ (by decide)).2 rfl⟩

/-- C9: with exact real arithmetic, for every rate `r > 0` and
overdispersion `o ≥ 0`: `OverdispersedPoisson(r, 0)` is `Poisson(r)`;
for `o ≠ 0` it is a negative binomial whose mean is `r` and whose
variance is `r * (1 + o*r)`; and the `LogNormal(m, s)` returned by
`RelaxedPoisson(r, o)` satisfies `exp(m + s²/2) = r` and
`(exp(s²) - 1) * exp(2m + s²) = r * (1 + o*r)`. -/
theorem claim_C9 (r o : ℝ) (hr : 0 < r) (ho : 0 ≤ o) :
    (Distributions.OverdispersedPoisson r 0 = .poisson r) ∧
    (o ≠ 0 →
      Distributions.OverdispersedPoisson r o =
        .negativeBinomial (r * (1 + o * r)⁻¹ / (1 - (1 + o * r)⁻¹))
          (1 - (1 + o * r)⁻¹) ∧
      Distributions.nbMean (r * (1 + o * r)⁻¹ / (1 - (1 + o * r)⁻¹))
          (1 - (1 + o * r)⁻¹) = r ∧
      Distributions.nbVariance (r * (1 + o * r)⁻¹ / (1 - (1 + o * r)⁻¹))
          (1 - (1 + o * r)⁻¹) = r * (1 + o * r)) ∧
    (∀ m s, Distributions.RelaxedPoisson r o = .logNormal m s →
      Distributions.logNormalMean m s = r ∧
      Distributions.logNormalVariance m s = r * (1 + o * r)) := by
  refine ⟨by simp [Distributions.OverdispersedPoisson], ?_, ?_⟩
  · intro hno
    have ho' : 0 < o := lt_of_le_of_ne ho (Ne.symm hno)
    have hor : 0 < o * r := mul_pos ho' hr
    have h1 : (0 : ℝ) < 1 + o * r := by linarith
    have h1ne : (1 : ℝ) + o * r ≠ 1 := by linarith
    have hqpos : 0 < (1 + o * r)⁻¹ := inv_pos.mpr h1
    have hq1 : (1 + o * r)⁻¹ < 1 := by
      rw [inv_lt_one_iff₀]
      right
      linarith
    have hp : 0 < 1 - (1 + o * r)⁻¹ := by linarith
    refine ⟨by simp [Distributions.OverdispersedPoisson, hno], ?_, ?_⟩
    · unfold Distributions.nbMean
      rw [show (1 : ℝ) - (1 - (1 + o * r)⁻¹) = (1 + o * r)⁻¹ from by ring]
      field_simp
    · unfold Distributions.nbVariance
      rw [show (1 : ℝ) - (1 - (1 + o * r)⁻¹) = (1 + o * r)⁻¹ from by ring]
      rw [div_eq_iff (by positivity)]
      field_simp
      ring
  · intro m s h
    unfold Distributions.RelaxedPoisson at h
    injection h with hm hs
    have hinv : 0 < r⁻¹ := inv_pos.mpr hr
    have hbase : (0 : ℝ) < 1 + (r⁻¹ + o) := by linarith
    have hs2 : 0 ≤ Real.log (1 + (r⁻¹ + o)) :=
      Real.log_nonneg (by linarith)
    have hexp : Real.exp (Real.log (1 + (r⁻¹ + o))) = 1 + (r⁻¹ + o) :=
      Real.exp_log hbase
    subst hm
    subst hs
    have hsq : Real.sqrt (Real.log (1 + (r⁻¹ + o))) ^ 2 =
        Real.log (1 + (r⁻¹ + o)) := Real.sq_sqrt hs2
    constructor
    · unfold Distributions.logNormalMean
      rw [hsq,
        show Real.log r - Real.log (1 + (r⁻¹ + o)) / 2
            + Real.log (1 + (r⁻¹ + o)) / 2 = Real.log r from by ring,
        Real.exp_log hr]
    · unfold Distributions.logNormalVariance
      rw [hsq, hexp,
        show 2 * (Real.log r - Real.log (1 + (r⁻¹ + o)) / 2)
            + Real.log (1 + (r⁻¹ + o)) = Real.log r + Real.log r from by
          ring,
        Real.exp_add, Real.exp_log hr]
      field_simp
      ring

/-- Witness for C9 at `r = 1`, `o = 1`: the zero-overdispersion branch
is a Poisson, and the negative binomial branch is exactly
moment-matched. -/
theorem claim_C9_witness :
    (Distributions.OverdispersedPoisson 1 0 = .poisson 1) ∧
    (Distributions.nbMean (1 * (1 + 1 * 1)⁻¹ / (1 - (1 + 1 * 1)⁻¹))
        (1 - (1 + 1 * 1)⁻¹) = 1) :=
  ⟨(claim_C9 1 1 (by norm_num) (by norm_num)).1,
   ((claim_C9 1 1 (by norm_num) (by norm_num)).2.1 (by norm_num)).2.1⟩

/-- Prefix bound for `foldl max`. -/
theorem le_foldl_max (l : List Nat) :
    ∀ b, b ≤ l.foldl max b ∧ ∀ x ∈ l, x ≤ l.foldl max b := by
  induction l with
  | nil => intro b; exact ⟨le_refl b, by simp⟩
  | cons a t ih =>
      intro b
      have hb : max b a ≤ t.foldl max (max b a) := (ih (max b a)).1
      refine ⟨le_trans (le_max_left b a) hb, ?_⟩
      intro x hx
      rcases List.mem_cons.mp hx with rfl | hx
      · exact le_trans (le_max_right b x) hb
      · exact (ih (max b a)).2 x hx

/-- Every member of a list is at most its `listMax`. -/
theorem le_listMax {l : List Nat} {x : Nat} (hx : x ∈ l) : x ≤ listMax l :=
  (le_foldl_max l 0).2 x hx

/-- Uniqueness of the fused-index decomposition `A * S + b` with
`b < S`. -/
theorem mul_add_inj (S : Nat) {b d : Nat} (hb : b < S) (hd : d < S)
    (A C : Nat) : A * S + b = C * S + d ↔ A = C ∧ b = d := by
  constructor
  · intro h
    have hS : 0 < S := Nat.lt_of_le_of_lt (Nat.zero_le b) hb
    have hAC : A = C := by
      have h1 : (A * S + b) / S = A := by
        rw [Nat.mul_comm, Nat.mul_add_div hS, Nat.div_eq_of_lt hb,
          Nat.add_zero]
      have h2 : (C * S + d) / S = C := by
        rw [Nat.mul_comm, Nat.mul_add_div hS, Nat.div_eq_of_lt hd,
          Nat.add_zero]
      rw [← h1, ← h2, h]
    subst hAC
    exact ⟨rfl, Nat.add_left_cancel h⟩
  · rintro ⟨rfl, rfl⟩
    rfl

namespace Strains

/-- Every sample's region index is below `Rc = 1 + max(sample_region)`. -/
theorem region_lt_rcOf {samples : List (Nat × Nat × Nat)}
    {x : Nat × Nat × Nat} (hx : x ∈ samples) : x.2.1 < rcOf samples := by
  have h : x.2.1 ≤ listMax (samples.map fun y => y.2.1) :=
    le_listMax (List.mem_map_of_mem (fun y => y.2.1) hx)
  unfold rcOf
  omega

/-- Every sample's strain index is below `S = 1 + max(sample_strain)`. -/
theorem strain_lt_sOf {samples : List (Nat × Nat × Nat)}
    {x : Nat × Nat × Nat} (hx : x ∈ samples) : x.2.2 < sOf samples := by
  have h : x.2.2 ≤ listMax (samples.map fun y => y.2.2) :=
    le_listMax (List.mem_map_of_mem (fun y => y.2.2) hx)
  unfold sOf
  omega

/-- The bucket `(t, c, s)` of `strain_data` counts exactly the samples
with clamped time `t`, region `c` and strain `s` (for in-range
indices). -/
theorem strainData_eq_countP (T : Nat) (samples : List (Nat × Nat × Nat))
    {t c s : Nat} (hc : c < rcOf samples) (hs : s < sOf samples) :
    strainData T samples t c s =
      samples.countP fun x =>
        decide (min x.1 (T - 1) = t ∧ x.2.1 = c ∧ x.2.2 = s) := by
  unfold strainData strainDataFlat
  apply List.countP_congr
  intro x hx
  have hcx : x.2.1 < rcOf samples := region_lt_rcOf hx
  have hsx : x.2.2 < sOf samples := strain_lt_sOf hx
  simp only [decide_eq_true_eq, flatIdx]
  rw [mul_add_inj (sOf samples) hsx hs, mul_add_inj (rcOf samples) hcx hc,
    and_assoc]

/-- Exactly one bucket of the index grid receives a given sample. -/
theorem sum_ite_triple (T Rc S t0 c0 s0 : Nat) (ht0 : t0 < T)
    (hc0 : c0 < Rc) (hs0 : s0 < S) :
    (∑ t ∈ Finset.range T, ∑ c ∈ Finset.range Rc, ∑ s ∈ Finset.range S,
      if t = t0 ∧ c = c0 ∧ s = s0 then 1 else 0) = 1 := by
  have hsingle : ∀ (n i : Nat), i < n →
      (∑ j ∈ Finset.range n, if j = i then 1 else 0) = 1 := by
    intro n i hi
    rw [Finset.sum_ite_eq' (Finset.range n) i fun _ => 1]
    simp [hi]
  have h2 : ∀ c, (∑ s ∈ Finset.range S,
      if c = c0 ∧ s = s0 then 1 else 0) = if c = c0 then 1 else 0 := by
    intro c
    by_cases hcc : c = c0
    · subst hcc
      simp only [true_and, if_pos rfl]
      exact hsingle S s0 hs0
    · simp [hcc]
  have h1 : ∀ t, (∑ c ∈ Finset.range Rc, ∑ s ∈ Finset.range S,
      if t = t0 ∧ c = c0 ∧ s = s0 then 1 else 0)
      = if t = t0 then 1 else 0 := by
    intro t
    by_cases htt : t = t0
    · subst htt
      simp only [true_and, if_pos rfl]
      rw [Finset.sum_congr rfl fun c _ => h2 c]
      exact hsingle Rc c0 hc0
    · simp [htt]
  rw [Finset.sum_congr rfl fun t _ => h1 t]
  exact hsingle T t0 ht0

/-- Summing the scattered counts over the whole `(T, Rc, S)` grid
recovers the number of samples, provided every sample is in range. -/
theorem sum_strainDataFlat (T Rc S : Nat) (hT : 0 < T)
    (l : List (Nat × Nat × Nat)) :
    (∀ x ∈ l, x.2.1 < Rc ∧ x.2.2 < S) →
    (∑ t ∈ Finset.range T, ∑ c ∈ Finset.range Rc, ∑ s ∈ Finset.range S,
      strainDataFlat T Rc S l ((t * Rc + c) * S + s)) = l.length := by
  induction l with
  | nil =>
      intro _
      simp [strainDataFlat]
  | cons x xs ih =>
      intro hwf
      have hsplit : ∀ j, strainDataFlat T Rc S (x :: xs) j =
          strainDataFlat T Rc S xs j
            + (if flatIdx T Rc S x = j then 1 else 0) := by
        intro j
        unfold strainDataFlat
        rw [List.countP_cons]
        simp
      have hwfx := hwf x (List.mem_cons_self x xs)
      have ht0 : min x.1 (T - 1) < T :=
        Nat.lt_of_le_of_lt (Nat.min_le_right _ _) (by omega)
      have hcond : ∀ t c s, t < T → c < Rc → s < S →
          ((flatIdx T Rc S x = (t * Rc + c) * S + s) ↔
            (t = min x.1 (T - 1) ∧ c = x.2.1 ∧ s = x.2.2)) := by
        intro t c s ht hc hs
        unfold flatIdx
        rw [mul_add_inj S hwfx.2 hs, mul_add_inj Rc hwfx.1 hc, and_assoc]
        constructor
        · rintro ⟨h1, h2, h3⟩
          exact ⟨h1.symm, h2.symm, h3.symm⟩
        · rintro ⟨h1, h2, h3⟩
          exact ⟨h1.symm, h2.symm, h3.symm⟩
      calc (∑ t ∈ Finset.range T, ∑ c ∈ Finset.range Rc,
              ∑ s ∈ Finset.range S,
              strainDataFlat T Rc S (x :: xs) ((t * Rc + c) * S + s))
          = (∑ t ∈ Finset.range T, ∑ c ∈ Finset.range Rc,
              ∑ s ∈ Finset.range S,
              (strainDataFlat T Rc S xs ((t * Rc + c) * S + s)
                + if t = min x.1 (T - 1) ∧ c = x.2.1 ∧ s = x.2.2
                  then 1 else 0)) := by
            refine Finset.sum_congr rfl fun t ht => ?_
            refine Finset.sum_congr rfl fun c hc => ?_
            refine Finset.sum_congr rfl fun s hs => ?_
            rw [hsplit, if_congr (hcond t c s (Finset.mem_range.mp ht)
              (Finset.mem_range.mp hc) (Finset.mem_range.mp hs)) rfl rfl]
        _ = xs.length + 1 := by
            simp only [Finset.sum_add_distrib]
            rw [ih fun y hy => hwf y (List.mem_cons_of_mem x hy),
              sum_ite_triple T Rc S _ _ _ ht0 hwfx.1 hwfx.2]
        _ = (x :: xs).length := by
            simp

end Strains

/-- C3: after construction, bucket `(t, c, s)` of the aggregated
`strain_data` equals the number of samples with
`min(sample_time, T-1) = t`, `sample_region = c`, `sample_strain = s`;
`strain_mask` retains exactly the `(t, c)` rows with positive total;
and the grand total of the retained `strain_data` equals the number
`N` of samples. -/
theorem claim_C3 (T : Nat) (hT : 0 < T)
    (samples : List (Nat × Nat × Nat)) :
    (∀ t c s, t < T → c < Strains.rcOf samples → s < Strains.sOf samples →
      Strains.strainData T samples t c s =
        samples.countP fun x =>
          decide (min x.1 (T - 1) = t ∧ x.2.1 = c ∧ x.2.2 = s)) ∧
    (∀ t c, Strains.strainMask T samples t c = true ↔
      0 < Strains.strainTotal T samples t c) ∧
    ((∑ t ∈ Finset.range T, ∑ c ∈ Finset.range (Strains.rcOf samples),
        if Strains.strainMask T samples t c
        then Strains.strainTotal T samples t c else 0) = samples.length) := by
  refine ⟨?_, ?_, ?_⟩
  · intro t c s _ hc hs
    exact Strains.strainData_eq_countP T samples hc hs
  · intro t c
    simp [Strains.strainMask]
  · have hmask : ∀ t c,
        (if Strains.strainMask T samples t c
          then Strains.strainTotal T samples t c else 0)
          = Strains.strainTotal T samples t c := by
      intro t c
      by_cases h0 : 0 < Strains.strainTotal T samples t c
      · simp [Strains.strainMask, h0]
      · simp [Strains.strainMask, h0]
        omega
    rw [Finset.sum_congr rfl fun t _ =>
      Finset.sum_congr rfl fun c _ => hmask t c]
    unfold Strains.strainTotal Strains.strainData
    exact Strains.sum_strainDataFlat T (Strains.rcOf samples)
      (Strains.sOf samples) hT samples fun x hx =>
        ⟨Strains.region_lt_rcOf hx, Strains.strain_lt_sOf hx⟩

/-- Witness for C3 at two samples over `T = 2` time steps: the bucket
`(1, 1, 0)` counts the single sample with clamped time `1`, and the
masked grand total is the sample count `2`. -/
theorem claim_C3_witness :
    (Strains.strainData 2 [(0, 0, 0), (3, 1, 0)] 1 1 0 =
      List.countP
        (fun x => decide (min x.1 (2 - 1) = 1 ∧ x.2.1 = 1 ∧ x.2.2 = 0))
        [(0, 0, 0), (3, 1, 0)]) ∧
    ((∑ t ∈ Finset.range 2,
        ∑ c ∈ Finset.range (Strains.rcOf [(0, 0, 0), (3, 1, 0)]),
        if Strains.strainMask 2 [(0, 0, 0), (3, 1, 0)] t c
        then Strains.strainTotal 2 [(0, 0, 0), (3, 1, 0)] t c else 0)
      = 2) :=
  ⟨(claim_C3 2 (by decide) [(0, 0, 0), (3, 1, 0)]).1 1 1 0 (by decide)
      (by decide) (by decide),
   (claim_C3 2 (by decide) [(0, 0, 0), (3, 1, 0)]).2.2⟩

namespace LoadData

/-- A `lineage_id` index is an index into the compressed lineage
list. -/
theorem lastIndexOf_lt {l : List String} {k : String} {i : Nat}
    (h : lastIndexOf l k = some i) : i < l.length := by
  unfold lastIndexOf at h
  have hmem := List.mem_of_mem_getLast? h
  obtain ⟨p, hp, rfl⟩ := List.mem_map.mp hmem
  exact List.fst_lt_of_mem_enum (List.mem_filter.mp hp).1

/-- `getD` of a mapped range at an in-range index. -/
theorem getD_map_range {β : Type} (n i : Nat) (f : Nat → β) (d : β)
    (hi : i < n) : ((List.range n).map f).getD i d = f i := by
  rw [List.getD_eq_getElem?_getD, List.getElem?_map, List.getElem?_range hi]
  rfl

/-- `getD` of a mapped list at an in-range index. -/
theorem getD_map {β γ : Type} (l : List β) (i : Nat) (f : β → γ) (d : γ)
    (hi : i < l.length) : (l.map f).getD i d = f (l.get ⟨i, hi⟩) := by
  rw [List.getD_eq_getElem?_getD, List.getElem?_map,
    List.getElem?_eq_getElem hi]
  rfl

end LoadData

/-- C10: under well-formed raw inputs (a nonempty column file, one
feature row per lineage, and pairwise-distinct compressed lineages —
the invariants of the pickled data files), `load_data` returns, and
the returned dictionary is internally consistent and fully filtered:
`weekly_strains` has shape `(T, P, S)` with `P = len(location_id)` and
`S = features.shape[0]`; `len(mutations) = features.shape[1]`; every
retained region has at least 2 time buckets containing a positive
strain count; and every retained `features` column has an entry
`≥ 0.5`. -/
theorem claim_C10 (compress : String → String)
    (vp lp : Option (String → Bool)) (raw : LoadData.RawData)
    (hrows : raw.rows ≠ [])
    (hnodup : (raw.aaLineages.map compress).Nodup)
    (hfeat : raw.aaFeatures.length = raw.aaLineages.length) :
    ∃ res, LoadData.loadData compress vp lp raw = some res ∧
      res.lineageIdSize = res.features.length ∧
      (∀ mat ∈ res.weekly, mat.length = res.locationId.length ∧
        ∀ row ∈ mat, row.length = res.lineageIdSize) ∧
      (∀ rowF ∈ res.features, rowF.length = res.mutations.length) ∧
      (∀ j, j < res.locationId.length →
        2 ≤ ((List.range res.weekly.length).filter fun t =>
          ((res.weekly.getD t []).getD j []).any fun n =>
            decide (0 < n)).length) ∧
      (∀ m, m < res.mutations.length →
        ∃ rowF ∈ res.features, (0.5 : ℚ) ≤ rowF.getD m 0) := by
  have hdedup : (raw.aaLineages.map compress).dedup =
      raw.aaLineages.map compress := List.Nodup.dedup hnodup
  have hSlen : LoadData.SOf compress raw =
      (LoadData.lineageIdInvOf compress raw).length := by
    unfold LoadData.SOf LoadData.lineageIdInvOf
    rw [hdedup]
  have hS : LoadData.SOf compress raw = raw.aaFeatures.length := by
    rw [hSlen]
    unfold LoadData.lineageIdInvOf
    rw [List.length_map, hfeat]
  have hall : (raw.rows.all fun row =>
      !LoadData.keepRow compress vp lp
          (LoadData.lineageIdInvOf compress raw) row ||
        (LoadData.lastIndexOf (LoadData.lineageIdInvOf compress raw)
            (compress row.lineage)).getD 0 < LoadData.SOf compress raw)
      = true := by
    rw [List.all_eq_true]
    intro row hrow
    by_cases hk : LoadData.keepRow compress vp lp
        (LoadData.lineageIdInvOf compress raw) row = true
    · have hsome : (LoadData.lastIndexOf
          (LoadData.lineageIdInvOf compress raw)
          (compress row.lineage)).isSome = true := by
        unfold LoadData.keepRow at hk
        simp only [Bool.and_eq_true] at hk
        exact hk.1.1.1
      obtain ⟨i, hi⟩ := Option.isSome_iff_exists.mp hsome
      have hlt := LoadData.lastIndexOf_lt hi
      simp only [hi, Option.getD_some, Bool.or_eq_true, decide_eq_true_eq]
      right
      rw [hSlen]
      exact hlt
    · simp [hk]
  unfold LoadData.loadData
  rw [if_neg hrows, if_neg (not_not_intro hall)]
  refine ⟨_, rfl, ?_, ?_, ?_, ?_, ?_⟩
  · show LoadData.SOf compress raw =
      (raw.aaFeatures.map fun rowF =>
        (LoadData.okMutationsOf raw).map fun m => rowF.getD m 0).length
    rw [List.length_map, hS]
  · show ∀ mat ∈ LoadData.weeklyOf compress vp lp raw,
      mat.length = ((LoadData.okRegionsOf compress vp lp raw).map fun p =>
        (LoadData.locsOf compress vp lp raw).getD p "").length ∧
      ∀ row ∈ mat, row.length = LoadData.SOf compress raw
    intro mat hmat
    unfold LoadData.weeklyOf at hmat
    obtain ⟨t, ht, rfl⟩ := List.mem_map.mp hmat
    refine ⟨by simp, ?_⟩
    intro row hrow
    obtain ⟨p, hp, rfl⟩ := List.mem_map.mp hrow
    simp
  · show ∀ rowF ∈ raw.aaFeatures.map fun rowF =>
        (LoadData.okMutationsOf raw).map fun m => rowF.getD m 0,
      rowF.length =
        ((LoadData.okMutationsOf raw).map fun m =>
          raw.aaMutations.getD m "").length
    intro rowF hrowF
    obtain ⟨rowF0, h0, rfl⟩ := List.mem_map.mp hrowF
    simp
  · intro j hj
    show 2 ≤ ((List.range
        (LoadData.weeklyOf compress vp lp raw).length).filter fun t =>
      (((LoadData.weeklyOf compress vp lp raw).getD t []).getD j []).any
        fun n => decide (0 < n)).length
    have hj' : j < (LoadData.okRegionsOf compress vp lp raw).length := by
      simpa using hj
    have hlen : (LoadData.weeklyOf compress vp lp raw).length =
        LoadData.TOf raw := by
      unfold LoadData.weeklyOf
      simp
    have hp0mem : (LoadData.okRegionsOf compress vp lp raw).get ⟨j, hj'⟩ ∈
        LoadData.okRegionsOf compress vp lp raw := List.get_mem _ _ hj'
    have hp0ok : 2 ≤ LoadData.numTimesObservedOf compress vp lp raw
        ((LoadData.okRegionsOf compress vp lp raw).get ⟨j, hj'⟩) := by
      have hmem2 := hp0mem
      unfold LoadData.okRegionsOf at hmem2
      exact of_decide_eq_true (List.mem_filter.mp hmem2).2
    have hfeq : ((List.range
        (LoadData.weeklyOf compress vp lp raw).length).filter fun t =>
          (((LoadData.weeklyOf compress vp lp raw).getD t []).getD j []).any
            fun n => decide (0 < n))
        = ((List.range (LoadData.TOf raw)).filter fun t =>
            (List.range (LoadData.SOf compress raw)).any fun s =>
              decide (0 < LoadData.countOf compress vp lp raw t
                ((LoadData.okRegionsOf compress vp lp raw).get ⟨j, hj'⟩) s)) := by
      rw [hlen]
      apply List.filter_congr
      intro t ht
      have ht' : t < LoadData.TOf raw := List.mem_range.mp ht
      have h1 : (LoadData.weeklyOf compress vp lp raw).getD t [] =
          (LoadData.okRegionsOf compress vp lp raw).map fun p =>
            (List.range (LoadData.SOf compress raw)).map fun s =>
              LoadData.countOf compress vp lp raw t p s := by
        unfold LoadData.weeklyOf
        exact LoadData.getD_map_range _ _ _ _ ht'
      rw [h1, LoadData.getD_map _ _ _ _ hj', List.any_map]
      rfl
    rw [hfeq]
    have hunfold : LoadData.numTimesObservedOf compress vp lp raw
        ((LoadData.okRegionsOf compress vp lp raw).get ⟨j, hj'⟩) =
        ((List.range (LoadData.TOf raw)).filter fun t =>
          (List.range (LoadData.SOf compress raw)).any fun s =>
            decide (0 < LoadData.countOf compress vp lp raw t
              ((LoadData.okRegionsOf compress vp lp raw).get ⟨j, hj'⟩) s)).length :=
      rfl
    rw [hunfold] at hp0ok
    exact hp0ok
  · intro m hm
    show ∃ rowF ∈ raw.aaFeatures.map fun rowF =>
        (LoadData.okMutationsOf raw).map fun mm => rowF.getD mm 0,
      (0.5 : ℚ) ≤ rowF.getD m 0
    have hm' : m < (LoadData.okMutationsOf raw).length := by
      simpa using hm
    have hmem : (LoadData.okMutationsOf raw).get ⟨m, hm'⟩ ∈
        LoadData.okMutationsOf raw := List.get_mem _ _ hm'
    have hcnt : 0 < raw.aaFeatures.countP fun rowF =>
        decide ((0.5 : ℚ) ≤ rowF.getD
          ((LoadData.okMutationsOf raw).get ⟨m, hm'⟩) 0) := by
      have hmem2 := hmem
      unfold LoadData.okMutationsOf at hmem2
      exact of_decide_eq_true (List.mem_filter.mp hmem2).2
    obtain ⟨rowF, hrowF, hpred⟩ := List.countP_pos.mp hcnt
    refine ⟨(LoadData.okMutationsOf raw).map fun mm => rowF.getD mm 0,
      List.mem_map_of_mem _ hrowF, ?_⟩
    rw [LoadData.getD_map _ _ _ _ hm']
    exact of_decide_eq_true hpred

/-- Witness for C10: the theorem instantiated on the concrete raw data
`rawAy` with identity compression and no patterns. -/
theorem claim_C10_witness :
    ∃ res, LoadData.loadData id none none Examples.rawAy = some res ∧
      res.lineageIdSize = res.features.length ∧
      (∀ mat ∈ res.weekly, mat.length = res.locationId.length ∧
        ∀ row ∈ mat, row.length = res.lineageIdSize) ∧
      (∀ rowF ∈ res.features, rowF.length = res.mutations.length) ∧
      (∀ j, j < res.locationId.length →
        2 ≤ ((List.range res.weekly.length).filter fun t =>
          ((res.weekly.getD t []).getD j []).any fun n =>
            decide (0 < n)).length) ∧
      (∀ m, m < res.mutations.length →
        ∃ rowF ∈ res.features, (0.5 : ℚ) ≤ rowF.getD m 0) :=
  claim_C10 id none none Examples.rawAy (by decide) (by decide) (by decide)

end PyroCov
